import Mathlib

/-!
A shallow embedding of the interactive execution-control subsystem of the
lace LC-3 toolchain, together with proofs about it.

Embedded sources:
 - src/debugger/parse.rs : the integer grammar parser and the typed
   argument parsing helpers of the debugger command line;
 - src/debugger/mod.rs : breakpoint bookkeeping, label address resolution
   and the execution-control state machine.

Tokens are represented as lists of characters, machine integers as Nat or
Int with explicit reduction modulo a power of two where the Rust code
relies on a fixed width. Where the Rust code can reach a native integer
overflow or an unimplemented path (both of which unwind instead of
producing a value), the embedding returns a dedicated marker constructor,
so that such executions stay observable.
-/

namespace Lace

/-- Sign character of an integer token (enum Sign in src/debugger/parse.rs). -/
inductive Sign where
  | Positive
  | Negative
deriving DecidableEq

/-- Numeric value of a sign, following the Rust enum discriminants 1 and -1. -/
def Sign.val : Sign → Int
  | .Positive => 1
  | .Negative => -1

/-- Radix selected by an integer token marker (enum Radix in src/debugger/parse.rs). -/
inductive Radix where
  | Binary
  | Octal
  | Decimal
  | Hex
deriving DecidableEq

/-- Numeric base of a radix, following the Rust enum discriminants. -/
def Radix.val : Radix → Int
  | .Binary => 2
  | .Octal => 8
  | .Decimal => 10
  | .Hex => 16

/-- Radix::parse_digit: parse a single digit character in a given radix. -/
def Radix.parse_digit : Radix → Char → Option Nat
  | .Binary, ch => if ch = '0' then some 0 else if ch = '1' then some 1 else none
  | .Octal, ch => if '0' ≤ ch ∧ ch ≤ '7' then some (ch.toNat - '0'.toNat) else none
  | .Decimal, ch => if '0' ≤ ch ∧ ch ≤ '9' then some (ch.toNat - '0'.toNat) else none
  | .Hex, ch =>
    if '0' ≤ ch ∧ ch ≤ '9' then some (ch.toNat - '0'.toNat)
    else if 'a' ≤ ch ∧ ch ≤ 'f' then some (ch.toNat - 'a'.toNat + 10)
    else if 'A' ≤ ch ∧ ch ≤ 'F' then some (ch.toNat - 'A'.toNat + 10)
    else none

/-- Value-level errors (error::Value), as used by src/debugger/parse.rs. -/
inductive Value where
  | MalformedInteger
  | IntegerTooLarge (max : Nat)
  | MismatchedType (expected actual : List Char)
deriving DecidableEq

/-- Result of parse_integer. The constructors ok and err mirror the Rust
Result of Option i32; nativeOverflow marks the executions in which the
native i32 accumulation overflows, so that the Rust function produces no
Result at all (a debug build panics, a release build wraps). -/
inductive ParseIntResult where
  | ok (value : Option Int)
  | err (e : Value)
  | nativeOverflow
deriving DecidableEq

/-- The i32 upper bound used by the conservative overflow check. -/
def i32Max : Int := 2147483647

/-- take_sign: consume one optional leading sign character. -/
def take_sign : List Char → Option Sign × List Char
  | '+' :: rest => (some Sign.Positive, rest)
  | '-' :: rest => (some Sign.Negative, rest)
  | cs => (none, cs)

/-- Result of take_prefix in src/debugger/parse.rs: either a radix (with
the syntax facts needed later: whether a zero preceded the marker and
whether the marker is the symbol for decimal), the special lone-zero
token, a token that is not an integer, or a malformed token. The
remaining characters are carried in the integer constructor. -/
inductive RadixResult where
  | integer (radix : Radix) (leading_zeros : Bool) (non_alpha : Bool) (rest : List Char)
  | singleZero
  | nonInteger
  | malformed
deriving DecidableEq

/-- Body of take_prefix after the optional single leading zero: consume an
optional radix marker character and classify the head of the token. -/
def take_radix_after_zero (leading_zeros : Bool) : List Char → RadixResult
  | 'b' :: rest => .integer Radix.Binary leading_zeros false rest
  | 'B' :: rest => .integer Radix.Binary leading_zeros false rest
  | 'x' :: rest => .integer Radix.Hex leading_zeros false rest
  | 'X' :: rest => .integer Radix.Hex leading_zeros false rest
  | 'o' :: rest => .integer Radix.Octal leading_zeros false rest
  | 'O' :: rest => .integer Radix.Octal leading_zeros false rest
  | '#' :: rest =>
    if leading_zeros then .malformed
    else .integer Radix.Decimal leading_zeros true rest
  | '-' :: _ => .malformed
  | '+' :: _ => .malformed
  | c :: rest =>
    if '0' ≤ c ∧ c ≤ '9' then .integer Radix.Decimal leading_zeros false (c :: rest)
    else .nonInteger
  | [] => if leading_zeros then .singleZero else .nonInteger

/-- take_prefix: consume at most one leading zero and an optional radix
marker character, classifying the head of the token. -/
def take_radix (cs : List Char) : RadixResult :=
  match cs with
  | '0' :: rest => take_radix_after_zero true rest
  | rest => take_radix_after_zero false rest

/-- Reconciliation of the up to two sign captures of parse_integer. -/
def reconcile_signs : Option Sign → Option Sign → Bool → Except Value (Option Sign)
  | some s, none, _ => .ok (some s)
  | none, some s, _ => .ok (some s)
  | none, none, require_sign =>
    if require_sign then .error Value.MalformedInteger else .ok none
  | some _, some _, _ => .error Value.MalformedInteger

/-- The digit accumulation loop at the end of parse_integer: value is
rebuilt as value * radix + digit, with the conservative bound check
value > i32MAX / radix before each step. The nativeOverflow result marks
the inputs on which value * radix + digit itself exceeds the i32 range
even though the conservative check passed. -/
def accumulate_digits (radix : Radix) : List Char → Int → ParseIntResult
  | [], acc => .ok (some acc)
  | ch :: rest, acc =>
    match radix.parse_digit ch with
    | none => .err Value.MalformedInteger
    | some digit =>
      if acc > i32Max / radix.val then .err (Value.IntegerTooLarge 32767)
      else
        if acc * radix.val + digit > i32Max then .nativeOverflow
        else accumulate_digits radix rest (acc * radix.val + digit)

/-- parse_integer in src/debugger/parse.rs: parse one token as an optional
signed 32-bit integer under the liberal multi-radix grammar. The caller
guarantees a non-empty token. -/
def parse_integer (string : List Char) (require_sign : Bool) : ParseIntResult :=
  let s1 := take_sign string
  match take_radix s1.2 with
  | .malformed => .err Value.MalformedInteger
  | .singleZero => .ok (some 0)
  | .nonInteger =>
    if s1.1.isSome then .err Value.MalformedInteger else .ok none
  | .integer radix leading_zeros non_alpha cs =>
    let s2 := take_sign cs
    match reconcile_signs s1.1 s2.1 require_sign with
    | .error e => .err e
    | .ok sign =>
      match s2.2 with
      | [] =>
        if sign.isSome || leading_zeros || non_alpha then .err Value.MalformedInteger
        else .ok none
      | c :: rest =>
        if (radix.parse_digit c).isNone then
          if sign.isSome || leading_zeros || non_alpha then .err Value.MalformedInteger
          else .ok none
        else
          match accumulate_digits radix (c :: rest) 0 with
          | .ok (some v) =>
            match sign with
            | some sg => .ok (some (v * sg.val))
            | none => .ok (some v)
          | r => r

/-- One of the 8 machine registers (crate::symbol::Register). -/
inductive Register where
  | R0
  | R1
  | R2
  | R3
  | R4
  | R5
  | R6
  | R7
deriving DecidableEq

/-- parse_register in src/debugger/parse.rs: the letter r or R, one digit
0 to 7, and nothing after it (anything further could start a label). -/
def parse_register (string : List Char) : Option Register :=
  match string with
  | [] => none
  | c0 :: rest =>
    if c0 = 'r' ∨ c0 = 'R' then
      match rest with
      | [] => none
      | c1 :: rest2 =>
        match
          (if c1 = '0' then some Register.R0
           else if c1 = '1' then some Register.R1
           else if c1 = '2' then some Register.R2
           else if c1 = '3' then some Register.R3
           else if c1 = '4' then some Register.R4
           else if c1 = '5' then some Register.R5
           else if c1 = '6' then some Register.R6
           else if c1 = '7' then some Register.R7
           else none) with
        | none => none
        | some r => if rest2.isEmpty then some r else none
    else none

/-- A label name together with its optional offset (struct Label). -/
structure Label where
  name : List Char
  offset : Int
deriving DecidableEq

/-- A memory location argument (enum MemoryLocation in src/debugger/command). -/
inductive MemoryLocation where
  | Address (address : Nat)
  | PC
  | Label (label : Label)
deriving DecidableEq

/-- A location argument: register or memory location (enum Location). -/
inductive Location where
  | Register (register : Register)
  | Memory (location : MemoryLocation)
deriving DecidableEq

/-- Argument-level errors (error::Argument), as used by src/debugger/parse.rs. -/
inductive ArgError where
  | InvalidValue (argument_name : List Char) (string : List Char) (error : Value)
  | MissingArgument (argument_name : List Char) (expected_count actual_count : Nat)
  | TooManyArguments (expected_count actual_count : Nat)
deriving DecidableEq

/-- Outcome of an argument parsing method. The constructors ok and err
mirror the Rust Result; nativeOverflow propagates the marker of
ParseIntResult; unimplemented marks executions that reach the todo macro
in the Rust source, which unwinds instead of producing a value. -/
inductive ArgOutcome (α : Type) where
  | ok (value : α)
  | err (e : ArgError)
  | nativeOverflow
  | unimplemented
deriving DecidableEq

/-- int_as_u16: try to convert an i32 value into u16; out of range values
(including every negative value) are an IntegerTooLarge error. -/
def int_as_u16 (integer : Int) : Except Value Nat :=
  if 0 ≤ integer ∧ integer ≤ 65535 then .ok integer.toNat
  else .error (Value.IntegerTooLarge 65535)

/-- ArgIter::next_integer_inner: parse the next token as an integer
argument, falling back to the given default when the token is absent. -/
def next_integer_inner (argument_name : List Char) (token : Option (List Char))
    (default : ArgOutcome Nat) : ArgOutcome Nat :=
  match token with
  | none => default
  | some argument =>
    match parse_integer argument false with
    | .err e => .err (ArgError.InvalidValue argument_name argument e)
    | .nativeOverflow => .nativeOverflow
    | .ok none =>
      .err (ArgError.InvalidValue argument_name argument
        (Value.MismatchedType
          (['i','n','t','e','g','e','r']) (['\x7b','u','n','k','n','o','w','n','\x7d'])))
    | .ok (some integer) =>
      match int_as_u16 integer with
      | .error e => .err (ArgError.InvalidValue argument_name argument e)
      | .ok value => .ok value

/-- ArgIter::next_positive_integer_or_default: next integer argument with
a missing token defaulting to 1 and an ok result clamped below by 1. -/
def next_positive_integer_or_default (argument_name : List Char)
    (token : Option (List Char)) : ArgOutcome Nat :=
  match next_integer_inner argument_name token (.ok 1) with
  | .ok value => .ok (max value 1)
  | r => r

/-- ArgIter::next_location: try a register parse, then an integer parse
producing an address; every other token shape reaches the todo macro in
the Rust source. -/
def next_location (argument_name : List Char) (expected_count : Nat)
    (token : Option (List Char)) : ArgOutcome Location :=
  match token with
  | none => .err (ArgError.MissingArgument argument_name expected_count 99)
  | some argument =>
    match parse_register argument with
    | some register => .ok (Location.Register register)
    | none =>
      match parse_integer argument false with
      | .err e => .err (ArgError.InvalidValue argument_name argument e)
      | .nativeOverflow => .nativeOverflow
      | .ok (some address) =>
        match int_as_u16 address with
        | .error e => .err (ArgError.InvalidValue argument_name argument e)
        | .ok a => .ok (Location.Memory (MemoryLocation.Address a))
      | .ok none => .unimplemented

/-- The two instruction forms the debugger decodes by itself
(enum RelevantInstr in src/debugger/mod.rs). -/
inductive RelevantInstr where
  | Ret
  | TrapHalt
deriving DecidableEq

/-- RelevantInstr::try_from: classify a 16-bit instruction word, decoding
only as far as needed to detect the return form (JMP through R7) and the
halt trap form. The shifts and masks mirror instr >> 12, (instr >> 6) & 7
and instr & 0xFF of the Rust source. -/
def RelevantInstr.tryFrom (instr : Nat) : Option RelevantInstr :=
  let opcode := instr >>> 12
  if opcode = 0xC then
    if (instr >>> 6) &&& 7 = 7 then some RelevantInstr.Ret else none
  else if opcode = 0xF then
    if instr &&& 0xFF = 0x25 then some RelevantInstr.TrapHalt else none
  else none

/-- The run mode of the debugger (enum Status in src/debugger/mod.rs). -/
inductive Status where
  | WaitForAction
  | Step (count : Nat)
  | Next (return_addr : Nat)
  | Continue
  | Finish
deriving DecidableEq

/-- The out-of-band result of a boundary check (enum Action). -/
inductive Action where
  | Proceed
  | StopDebugger
  | ExitProgram
deriving DecidableEq

/-- One pass of the dispatch loop of Debugger::wait_for_single_action,
as a pure function of the status, the current program counter and the
decoded relevant instruction. The action component some a means the loop
returns a to the execution engine; none means the loop falls into the
command prompt, that is, control returns to the operator. -/
def wait_for_single_action (status : Status) (pc : Nat)
    (instr : Option RelevantInstr) : Status × Option Action :=
  match status with
  | .WaitForAction => (.WaitForAction, none)
  | .Step count =>
    if count > 0 then (.Step (count - 1), some Action.Proceed)
    else (.WaitForAction, some Action.Proceed)
  | .Next return_addr =>
    if pc = return_addr then (.WaitForAction, none)
    else (.Next return_addr, some Action.Proceed)
  | .Continue => (.Continue, some Action.Proceed)
  | .Finish =>
    if instr = some RelevantInstr.Ret then (.Step 0, some Action.Proceed)
    else (.Finish, some Action.Proceed)

/-- A breakpoint (struct Breakpoint in src/debugger/mod.rs). -/
structure Breakpoint where
  address : Nat
  predefined : Bool
deriving DecidableEq

/-- Breakpoints::get: first breakpoint with the given address. -/
def Breakpoints.get : List Breakpoint → Nat → Option Breakpoint
  | [], _ => none
  | b :: rest, address =>
    if b.address = address then some b else Breakpoints.get rest address

/-- Breakpoints::contains: whether any breakpoint has the given address. -/
def Breakpoints.contains : List Breakpoint → Nat → Bool
  | [], _ => false
  | b :: rest, address =>
    if b.address = address then true else Breakpoints.contains rest address

/-- Breakpoints::insert: push one breakpoint at the end of the list. -/
def Breakpoints.insert (bps : List Breakpoint) (b : Breakpoint) : List Breakpoint :=
  bps ++ [b]

/-- Breakpoints::remove: drop every breakpoint with the given address and
report whether any breakpoint was dropped. -/
def Breakpoints.remove (bps : List Breakpoint) (address : Nat) :
    List Breakpoint × Bool :=
  let retained := bps.filter (fun b => b.address != address)
  (retained, bps.length != retained.length)

/-- The fields of the Debugger aggregate that the boundary check protocol
reads and writes: the run mode, the breakpoint list repeated from the
Breakpoints newtype, and the address at which the previous boundary check
paused on a breakpoint (current_breakpoint). -/
structure DebuggerState where
  status : Status
  breakpoints : List Breakpoint
  current_breakpoint : Option Nat
deriving DecidableEq

/-- The breakpoint and halt interception step of Debugger::wait_for_action:
pause at a breakpoint unless the previous boundary check already paused at
this very address; otherwise clear the marker and pause on a halt trap. -/
def intercept (d : DebuggerState) (pc : Nat) (instr : Option RelevantInstr) :
    DebuggerState :=
  if (Breakpoints.get d.breakpoints pc).isSome = true ∧ d.current_breakpoint ≠ some pc then
    ⟨Status.WaitForAction, d.breakpoints, some pc⟩
  else
    ⟨if instr = some RelevantInstr.TrapHalt then Status.WaitForAction else d.status,
      d.breakpoints, none⟩

/-- Debugger::wait_for_action: the per-instruction boundary check. The
word argument is the memory word at the program counter. Device address
space (except the halt sentinel 0xFFFF) is warned about and skipped;
otherwise the relevant instruction is decoded, breakpoints and halt are
intercepted and the status dispatch of wait_for_single_action runs. -/
def wait_for_action (d : DebuggerState) (pc word : Nat) :
    DebuggerState × Option Action :=
  if 0xFE00 ≤ pc ∧ pc < 0xFFFF then (d, some Action.Proceed)
  else
    let instr := RelevantInstr.tryFrom word
    let d2 := intercept d pc instr
    let sa := wait_for_single_action d2.status pc instr
    (⟨sa.1, d2.breakpoints, d2.current_breakpoint⟩, sa.2)

/-- The status transition of the step command: Command::Step with count n
sets Status::Step with count n - 1 (src/debugger/mod.rs, next_action).
The argument parser guarantees count is at least 1. -/
def step_command_transition (count : Nat) : Status :=
  Status.Step (count - 1)

/-- The breakpoint list transition of the break add command: resolve to an
address, refuse a duplicate (reporting true for the already-exists
notice), otherwise insert a non-predefined breakpoint. -/
def break_add (bps : List Breakpoint) (address : Nat) : List Breakpoint × Bool :=
  if Breakpoints.contains bps address then (bps, true)
  else (Breakpoints.insert bps ⟨address, false⟩, false)

/-- A breakpoint management command, already resolved to an address. -/
inductive BreakCmd where
  | add (address : Nat)
  | remove (address : Nat)
deriving DecidableEq

/-- Effect of one breakpoint management command on the breakpoint list. -/
def apply_break_cmd (bps : List Breakpoint) : BreakCmd → List Breakpoint
  | .add address => (break_add bps address).1
  | .remove address => (Breakpoints.remove bps address).1

/-- Effect of a sequence of breakpoint management commands. -/
def apply_break_cmds (bps : List Breakpoint) (cmds : List BreakCmd) : List Breakpoint :=
  cmds.foldl apply_break_cmd bps

/-- No two breakpoints of the list share an address. -/
def distinct_addresses (bps : List Breakpoint) : Prop :=
  List.Pairwise (fun b1 b2 => b1.address ≠ b2.address) bps

/-- Run a sequence of boundary checks, each given as a pair of the program
counter and the memory word at it, threading the debugger state. -/
def run_boundaries (d : DebuggerState) : List (Nat × Nat) → DebuggerState
  | [] => d
  | (pc, word) :: rest => run_boundaries (wait_for_action d pc word).1 rest

/-- Whether every boundary check of the sequence returns Proceed, so that
one machine instruction executes after each check. -/
def boundaries_proceed (d : DebuggerState) : List (Nat × Nat) → Bool
  | [] => true
  | (pc, word) :: rest =>
    let r := wait_for_action d pc word
    match r.2 with
    | some Action.Proceed => boundaries_proceed r.1 rest
    | _ => false

/-- Signed 16-bit reading of a machine word, as in the Rust cast as i16. -/
def toI16 (n : Nat) : Int :=
  if (n : Int) % 65536 < 32768 then (n : Int) % 65536 else (n : Int) % 65536 - 65536

/-- Reduce an integer into the signed 16-bit range, modelling wrapping
i16 arithmetic (the release behaviour of the Rust additions; a debug
build panics on the overflowing inputs instead). -/
def wrapI16 (i : Int) : Int :=
  if i % 65536 < 32768 then i % 65536 else i % 65536 - 65536

/-- Unsigned 16-bit reading of a signed value, as in the Rust cast as u16. -/
def toU16 (i : Int) : Nat :=
  (i % 65536).toNat

/-- get_label_address in src/debugger/mod.rs: the raw symbol table value
(passed in here, the symbol table itself being an external collaborator)
minus one, compensating for the program counter increment that precedes
execution. The subtraction is u16 wrapping. -/
def get_label_address (symbol_value : Option Nat) : Option Nat :=
  symbol_value.map (fun addr => (addr + 65535) % 65536)

/-- Debugger::resolve_label_address: adjust the raw symbol value by -1,
add the label offset and the load origin in i16 arithmetic, and accept
the result only when it is not below the origin (signed comparison) and
below the device space bound 0xFE00. -/
def resolve_label_address (orig : Nat) (symbol_value : Option Nat) (offset : Int) :
    Option Nat :=
  match get_label_address symbol_value with
  | none => none
  | some address =>
    let origI : Int := toI16 orig
    let addressI : Int := wrapI16 (toI16 address + offset + origI)
    if addressI < origI ∨ 0xFE00 ≤ toU16 addressI then none
    else some (toU16 addressI)

/-- The resolution rule in the words of the spec, amended only where the
counterexample forces it: the resolved address is origin + (value - 1) +
offset reduced modulo 2 ^ 16, accepted when the signed 16-bit reading of
the origin is at most the signed 16-bit reading of that address and the
address is below 0xFE00; an absent name yields no address. -/
def resolve_label_address_spec (orig : Nat) (symbol_value : Option Nat) (offset : Int) :
    Option Nat :=
  match symbol_value with
  | none => none
  | some v =>
    let a : Nat := (((orig : Int) + (((v + 65535) % 65536 : Nat) : Int) + offset) % 65536).toNat
    if toI16 orig ≤ toI16 a ∧ a < 0xFE00 then some a else none

/-- A debugger state with one breakpoint at 0x3000, the operator having
resumed with continue, used to exercise the debounce behaviour. -/
def debounce_demo_state : DebuggerState :=
  ⟨Status.Continue, [⟨0x3000, false⟩], none⟩

/-- The state after the first boundary check at 0x3000 (which pauses). -/
def debounce_check1 : DebuggerState :=
  (wait_for_action debounce_demo_state 0x3000 0x0FFF).1

/-- The paused state after the operator resumes with continue. -/
def debounce_resumed : DebuggerState :=
  ⟨Status.Continue, debounce_check1.breakpoints, debounce_check1.current_breakpoint⟩

/-- The second boundary check at the same address 0x3000: the program
counter never moved away, the word at 0x3000 being a branch to itself. -/
def debounce_check2 : DebuggerState × Option Action :=
  wait_for_action debounce_resumed 0x3000 0x0FFF

/-- The third boundary check, still at the same address 0x3000. -/
def debounce_check3 : DebuggerState × Option Action :=
  wait_for_action debounce_check2.1 0x3000 0x0FFF

/-- Membership characterisation of Breakpoints.contains. -/
theorem breakpoints_contains_iff (bps : List Breakpoint) (a : Nat) :
    Breakpoints.contains bps a = true ↔ ∃ b ∈ bps, b.address = a := by
  induction bps with
  | nil => simp [Breakpoints.contains]
  | cons b rest ih =>
    by_cases h : b.address = a <;> simp [Breakpoints.contains, h, ih]

/-- Breakpoints.remove leaves no breakpoint at the removed address. -/
theorem breakpoints_remove_mem (bps : List Breakpoint) (a : Nat) :
    ∀ b ∈ (Breakpoints.remove bps a).1, b.address ≠ a := by
  intro b hb
  simp only [Breakpoints.remove, List.mem_filter] at hb
  simpa using hb.2

/-- Breakpoints.remove reports exactly whether a breakpoint existed at the
removed address. -/
theorem breakpoints_remove_report (bps : List Breakpoint) (a : Nat) :
    (Breakpoints.remove bps a).2 = Breakpoints.contains bps a := by
  rw [Bool.eq_iff_iff, Breakpoints.remove, bne_iff_ne, breakpoints_contains_iff]
  constructor
  · intro h
    by_contra hc
    push_neg at hc
    have hself : bps.filter (fun b => b.address != a) = bps :=
      List.filter_eq_self.mpr (fun b hb => by simpa using hc b hb)
    exact h (by rw [hself])
  · rintro ⟨b, hb, hba⟩
    have hlt : (bps.filter (fun b => b.address != a)).length < bps.length := by
      apply List.length_filter_lt_length_iff_exists.mpr
      exact ⟨b, hb, by simp [hba]⟩
    omega

/-- break_add preserves distinctness of breakpoint addresses. -/
theorem distinct_addresses_break_add (bps : List Breakpoint) (a : Nat)
    (h : distinct_addresses bps) : distinct_addresses (break_add bps a).1 := by
  unfold break_add
  by_cases hc : Breakpoints.contains bps a = true
  · simpa [hc] using h
  · have hc' : Breakpoints.contains bps a = false := by simpa using hc
    have hall : ∀ b ∈ bps, b.address ≠ a := by
      intro b hb hba
      exact absurd ((breakpoints_contains_iff bps a).mpr ⟨b, hb, hba⟩) (by simp [hc'])
    simp only [hc', Bool.false_eq_true, if_false, Breakpoints.insert]
    rw [distinct_addresses, List.pairwise_append]
    refine ⟨h, List.pairwise_singleton _ _, ?_⟩
    intro x hx y hy
    simp only [List.mem_singleton] at hy
    subst hy
    exact hall x hx

/-- Breakpoints.remove preserves distinctness of breakpoint addresses. -/
theorem distinct_addresses_remove (bps : List Breakpoint) (a : Nat)
    (h : distinct_addresses bps) : distinct_addresses (Breakpoints.remove bps a).1 :=
  List.Pairwise.sublist (List.filter_sublist _) h

/-- Every sequence of breakpoint commands preserves distinctness. -/
theorem distinct_addresses_apply_cmds (cmds : List BreakCmd) :
    ∀ bps, distinct_addresses bps → distinct_addresses (apply_break_cmds bps cmds) := by
  induction cmds with
  | nil => exact fun bps h => h
  | cons c cs ih =>
    intro bps h
    show distinct_addresses (apply_break_cmds (apply_break_cmd bps c) cs)
    apply ih
    cases c with
    | add a => exact distinct_addresses_break_add bps a h
    | remove a => exact distinct_addresses_remove bps a h

/-- A boundary check on a state whose status is Step m, with no
breakpoints, a user-space program counter and a non-halt word, decrements
the count (reverting to WaitForAction at zero) and returns Proceed. -/
theorem wait_for_action_step_state (d : DebuggerState) (pc word m : Nat)
    (hpc : pc < 0xFE00) (hbp : d.breakpoints = []) (hst : d.status = Status.Step m)
    (hhalt : RelevantInstr.tryFrom word ≠ some RelevantInstr.TrapHalt) :
    wait_for_action d pc word
      = (⟨if 0 < m then Status.Step (m - 1) else Status.WaitForAction, [], none⟩,
         some Action.Proceed) := by
  have h0 : ¬(0xFE00 ≤ pc ∧ pc < 0xFFFF) := by omega
  have hint : intercept d pc (RelevantInstr.tryFrom word) = ⟨Status.Step m, [], none⟩ := by
    simp [intercept, hbp, Breakpoints.get, hhalt, hst]
  unfold wait_for_action
  rw [if_neg h0]
  simp only [hint]
  by_cases hm : 0 < m <;> simp [wait_for_single_action, hm]

/-- Auxiliary induction for the step command: with status Step m, no
breakpoints and benign inputs, at most m + 1 boundary checks all return
Proceed, and exactly m + 1 of them end with the status reverted to
WaitForAction. -/
theorem step_run_aux (inputs : List (Nat × Nat)) :
    ∀ (m : Nat) (d : DebuggerState), d.breakpoints = [] → d.status = Status.Step m →
    (∀ p ∈ inputs, p.1 < 0xFE00 ∧ RelevantInstr.tryFrom p.2 ≠ some RelevantInstr.TrapHalt) →
    (inputs.length ≤ m + 1 → boundaries_proceed d inputs = true)
    ∧ (inputs.length = m + 1 →
        run_boundaries d inputs = ⟨Status.WaitForAction, [], none⟩) := by
  induction inputs with
  | nil =>
    intro m d hbp hst hok
    exact ⟨fun _ => rfl, fun h => absurd h (by simp)⟩
  | cons head rest ih =>
    intro m d hbp hst hok
    obtain ⟨pc, word⟩ := head
    have hh := hok (pc, word) (List.mem_cons_self _ _)
    have hok' : ∀ p ∈ rest,
        p.1 < 0xFE00 ∧ RelevantInstr.tryFrom p.2 ≠ some RelevantInstr.TrapHalt :=
      fun p hp => hok p (List.mem_cons_of_mem _ hp)
    have hstep := wait_for_action_step_state d pc word m hh.1 hbp hst hh.2
    match m with
    | 0 =>
      rw [if_neg (by omega)] at hstep
      constructor
      · intro hlen
        have hrest : rest = [] := by simpa using hlen
        subst hrest
        simp [boundaries_proceed, hstep]
      · intro hlen
        have hrest : rest = [] := by simpa using hlen
        subst hrest
        simp [run_boundaries, hstep]
    | m' + 1 =>
      rw [if_pos (by omega)] at hstep
      have hrest := ih m' ⟨Status.Step (m' + 1 - 1), [], none⟩ rfl rfl hok'
      constructor
      · intro hlen
        simp only [boundaries_proceed, hstep]
        exact hrest.1 (by
          have hlen2 : rest.length + 1 ≤ m' + 1 + 1 := by simpa using hlen
          omega)
      · intro hlen
        simp only [run_boundaries, hstep]
        exact hrest.2 (by
          have hlen2 : rest.length + 1 = m' + 1 + 1 := by simpa using hlen
          omega)

/-- A boundary check on a waiting state with a user-space program counter
hands control to the operator regardless of breakpoints and halt. -/
theorem wait_for_action_waiting (d : DebuggerState) (pc word : Nat)
    (hpc : pc < 0xFE00) (hst : d.status = Status.WaitForAction) :
    (wait_for_action d pc word).2 = none := by
  have hint : (intercept d pc (RelevantInstr.tryFrom word)).status = Status.WaitForAction := by
    unfold intercept
    split
    · rfl
    · simp only [hst]
      exact ite_self _
  simp only [wait_for_action, if_neg (by omega : ¬(0xFE00 ≤ pc ∧ pc < 0xFFFF))]
  rw [hint]
  rfl

/-- C1: the conservative bound check of parse_integer misses the decimal
token 2147483648, whose final accumulation step overflows the native i32
range instead of producing an IntegerTooLarge error, although the
documented contract of the function (and the two hexadecimal boundary
cases, which do behave as claimed) promise an error for every value out
of the i32 range. -/
theorem parse_integer_overflow_bug :
    parse_integer (['2','1','4','7','4','8','3','6','4','8']) false
      = ParseIntResult.nativeOverflow
    ∧ parse_integer (['x','7','f','f','f','f','f','f','f']) false
      = ParseIntResult.ok (some 0x7fffffff)
    ∧ parse_integer (['x','8','0','0','0','0','0','0','0']) false
      = ParseIntResult.err (Value.IntegerTooLarge 32767) := by
  refine ⟨by decide, by decide, by decide⟩

/-- C8: the literal contract cases of parse_integer: the lone zero is the
single special-cased bare zero, doubly marked forms are errors rather
than non-integers, and a hexadecimal marker followed by non-digits is not
an integer at all. -/
theorem parse_integer_literal_cases :
    parse_integer (['0']) false = ParseIntResult.ok (some 0)
    ∧ parse_integer (['0','0','x','4']) false = ParseIntResult.err Value.MalformedInteger
    ∧ parse_integer (['0','#','4']) false = ParseIntResult.err Value.MalformedInteger
    ∧ parse_integer (['x','L','a','b','e','l']) false = ParseIntResult.ok none := by
  refine ⟨by decide, by decide, by decide, by decide⟩

/-- C7: a location argument token that is neither a register nor an
integer, such as the label Foo, reaches the unimplemented label and
pc-offset path of next_location, which unwinds out of the command loop
instead of producing the recoverable typed error the propagation policy
promises. -/
theorem next_location_label_unimplemented :
    next_location (['d','s','t']) 2 (some ['F','o','o']) = ArgOutcome.unimplemented := by
  decide

/-- C6 (counterexample): a negative count token is not clamped to 1 by
next_positive_integer_or_default; it is rejected with an IntegerTooLarge
error by the 16-bit range conversion, refuting the claim that every
parsed value at most 0 yields 1 and never an error. -/
theorem next_positive_integer_negative_error :
    next_positive_integer_or_default (['c','o','u','n','t']) (some ['-','5'])
      = ArgOutcome.err (ArgError.InvalidValue (['c','o','u','n','t']) (['-','5'])
          (Value.IntegerTooLarge 65535))
    ∧ next_positive_integer_or_default (['c','o','u','n','t']) (some ['-','5'])
      ≠ ArgOutcome.ok 1 := by
  refine ⟨by decide, by decide⟩

/-- C6 (amended): next_positive_integer_or_default yields 1 for a missing
argument and for a token parsing to the integer 0; a token parsing to a
negative integer is rejected by the unsigned 16-bit range conversion with
an IntegerTooLarge error before the clamp is ever applied. -/
theorem next_positive_integer_amended (name t : List Char) (v : Int) :
    next_positive_integer_or_default name none = ArgOutcome.ok 1
    ∧ (parse_integer t false = ParseIntResult.ok (some 0) →
        next_positive_integer_or_default name (some t) = ArgOutcome.ok 1)
    ∧ (parse_integer t false = ParseIntResult.ok (some v) → v < 0 →
        next_positive_integer_or_default name (some t)
          = ArgOutcome.err (ArgError.InvalidValue name t (Value.IntegerTooLarge 65535))) := by
  refine ⟨rfl, fun h => ?_, fun h hv => ?_⟩
  · simp [next_positive_integer_or_default, next_integer_inner, h, int_as_u16]
  · have hng : ¬(0 ≤ v ∧ v ≤ 65535) := by omega
    simp only [next_positive_integer_or_default, next_integer_inner, h, int_as_u16,
      if_neg hng]

/-- Witness for C6 at the token -7. -/
theorem next_positive_integer_amended_witness :
    parse_integer (['-','7']) false = ParseIntResult.ok (some (-7))
    ∧ next_positive_integer_or_default (['c','o','u','n','t']) (some ['-','7'])
      = ArgOutcome.err (ArgError.InvalidValue (['c','o','u','n','t']) (['-','7'])
          (Value.IntegerTooLarge 65535)) :=
  ⟨by decide,
   (next_positive_integer_amended (['c','o','u','n','t']) (['-','7']) (-7)).2.2
     (by decide) (by decide)⟩

/-- C2 (counterexample): with a breakpoint at 0x3000 and the word there
branching to itself, the first boundary check pauses and records the
address, the second check at the same address is debounced but clears the
recorded address, and therefore the third boundary check at the very same
address pauses again although the program counter never moved away,
refuting the claim that no further check at the same address re-triggers
without the program counter moving away and back. -/
theorem breakpoint_debounce_counterexample :
    debounce_check1.status = Status.WaitForAction
    ∧ debounce_check1.current_breakpoint = some 0x3000
    ∧ debounce_check2.2 = some Action.Proceed
    ∧ debounce_check2.1.current_breakpoint = none
    ∧ debounce_check3.1.status = Status.WaitForAction
    ∧ debounce_check3.2 = none := by
  refine ⟨by decide, by decide, by decide, by decide, by decide, by decide⟩

/-- C2 (amended): the breakpoint debounce is one-shot. A boundary check at
a breakpoint address pauses and records the address whenever the
immediately preceding check did not pause there; when it did, the check
does not pause but clears the record, so the debounce protects exactly
one subsequent check: any later check at the same address (and equally a
check after moving away and back) pauses again. -/
theorem breakpoint_debounce_amended (d : DebuggerState) (pc : Nat)
    (instr : Option RelevantInstr)
    (hbp : (Breakpoints.get d.breakpoints pc).isSome = true) :
    (d.current_breakpoint ≠ some pc →
      intercept d pc instr = ⟨Status.WaitForAction, d.breakpoints, some pc⟩)
    ∧ (d.current_breakpoint = some pc →
      intercept d pc instr
        = ⟨if instr = some RelevantInstr.TrapHalt then Status.WaitForAction else d.status,
           d.breakpoints, none⟩) := by
  constructor
  · intro h
    simp [intercept, hbp, h]
  · intro h
    simp [intercept, h]

/-- Witness for C2 on the demonstration state with a breakpoint at 0x3000. -/
theorem breakpoint_debounce_amended_witness :
    (Breakpoints.get debounce_demo_state.breakpoints 0x3000).isSome = true
    ∧ intercept debounce_demo_state 0x3000 none
      = ⟨Status.WaitForAction, debounce_demo_state.breakpoints, some 0x3000⟩ :=
  ⟨by decide,
   (breakpoint_debounce_amended debounce_demo_state 0x3000 none (by decide)).1 (by decide)⟩

/-- C4 (counterexample): after the boundary check that decodes the Ret
instruction has moved the status from Finish to Step 0 and returned
Proceed (so the RET executes), the following boundary check, in status
Step 0, still returns Proceed rather than handing control back, so a
second instruction beyond the RET executes before the operator is
prompted, refuting the claim that exactly one more instruction executes. -/
theorem finish_counterexample :
    wait_for_single_action Status.Finish 0x3005 (some RelevantInstr.Ret)
      = (Status.Step 0, some Action.Proceed)
    ∧ (wait_for_single_action (Status.Step 0) 0x3001 none).2 = some Action.Proceed := by
  refine ⟨by decide, by decide⟩

/-- C4 (amended): in state Finish every boundary check returns Proceed,
and on decoding the Ret form the status moves to Step 0 before Proceed is
returned; in consequence exactly two more instructions execute, the RET
itself and the instruction at the return address, before control returns
to the operator at the third boundary check. -/
theorem finish_semantics_amended (pc1 pc2 pc3 : Nat) (i1 i2 i3 : Option RelevantInstr) :
    (wait_for_single_action Status.Finish pc1 i1).2 = some Action.Proceed
    ∧ (i1 ≠ some RelevantInstr.Ret →
        wait_for_single_action Status.Finish pc1 i1 = (Status.Finish, some Action.Proceed))
    ∧ (i1 = some RelevantInstr.Ret →
        wait_for_single_action Status.Finish pc1 i1 = (Status.Step 0, some Action.Proceed)
        ∧ wait_for_single_action (Status.Step 0) pc2 i2
            = (Status.WaitForAction, some Action.Proceed)
        ∧ (wait_for_single_action Status.WaitForAction pc3 i3).2 = none) := by
  by_cases h : i1 = some RelevantInstr.Ret <;>
    simp [wait_for_single_action, h]

/-- Witness for C4 with the Ret form decoded at the Finish boundary. -/
theorem finish_semantics_amended_witness :
    wait_for_single_action Status.Finish 0x3005 (some RelevantInstr.Ret)
      = (Status.Step 0, some Action.Proceed)
    ∧ wait_for_single_action (Status.Step 0) 0x3006 none
      = (Status.WaitForAction, some Action.Proceed)
    ∧ (wait_for_single_action Status.WaitForAction 0x3006 none).2 = none :=
  (finish_semantics_amended 0x3005 0x3006 0x3006 (some RelevantInstr.Ret) none none).2.2 rfl

/-- C10: for every 16-bit instruction word, the relevant-instruction
classifier recognises the Ret form exactly when bits 15 to 12 are 0xC and
bits 8 to 6 are all ones (any JMP through R7), the TrapHalt form exactly
when bits 15 to 12 are 0xF and bits 7 to 0 are 0x25, and nothing
otherwise, regardless of the remaining bits. -/
theorem relevant_instr_classification (w : Nat) (hw : w < 65536) :
    (RelevantInstr.tryFrom w = some RelevantInstr.Ret ↔ w / 4096 = 12 ∧ w / 64 % 8 = 7)
    ∧ (RelevantInstr.tryFrom w = some RelevantInstr.TrapHalt ↔ w / 4096 = 15 ∧ w % 256 = 37)
    ∧ (RelevantInstr.tryFrom w = none ↔
        ¬(w / 4096 = 12 ∧ w / 64 % 8 = 7) ∧ ¬(w / 4096 = 15 ∧ w % 256 = 37)) := by
  have h1 : w >>> 12 = w / 4096 := by rw [Nat.shiftRight_eq_div_pow]
  have h2 : w >>> 6 = w / 64 := by rw [Nat.shiftRight_eq_div_pow]
  have h3 : w / 64 &&& 7 = w / 64 % 8 := by
    have := Nat.and_pow_two_sub_one_eq_mod (w / 64) 3
    norm_num at this
    exact this
  have h4 : w &&& 255 = w % 256 := by
    have := Nat.and_pow_two_sub_one_eq_mod w 8
    norm_num at this
    exact this
  simp only [RelevantInstr.tryFrom, h1, h2, h3, h4]
  split_ifs with hc hr hf ht
  · exact ⟨by simp [hc, hr], by simp [hc], by simp [hc, hr]⟩
  · exact ⟨by simp [hr], by simp [hc], by simp [hr, hc]⟩
  · exact ⟨by simp [hc], by simp [hf, ht], by simp [hf, ht]⟩
  · exact ⟨by simp [hc], by simp [ht], by simp [hc, ht]⟩
  · exact ⟨by simp [hc], by simp [hf], by simp [hc, hf]⟩

/-- Witness for C10 on a non-canonical Ret encoding and a halt trap word. -/
theorem relevant_instr_classification_witness :
    (0xCFFF : Nat) < 65536
    ∧ RelevantInstr.tryFrom 0xCFFF = some RelevantInstr.Ret
    ∧ RelevantInstr.tryFrom 0xF025 = some RelevantInstr.TrapHalt :=
  ⟨by decide,
   ((relevant_instr_classification 0xCFFF (by decide)).1).mpr (by decide),
   ((relevant_instr_classification 0xF025 (by decide)).2.1).mpr (by decide)⟩

/-- C3: the step command with count n at least 1 sets the status to Step
with remaining n - 1; every boundary check in state Step returns Proceed,
decrementing a positive remaining count and reverting to WaitForAction at
zero; consequently, with no breakpoints set, a user-space program counter
and no halt word, exactly n boundary checks return Proceed (so exactly n
instructions execute) and the check after them hands control back to the
operator. -/
theorem step_command_exact_count (n : Nat) (hn : 1 ≤ n) (d : DebuggerState)
    (hbp : d.breakpoints = []) (hst : d.status = step_command_transition n)
    (inputs : List (Nat × Nat)) (hlen : inputs.length = n)
    (hok : ∀ p ∈ inputs,
      p.1 < 0xFE00 ∧ RelevantInstr.tryFrom p.2 ≠ some RelevantInstr.TrapHalt) :
    step_command_transition n = Status.Step (n - 1)
    ∧ (∀ c pc instr, wait_for_single_action (Status.Step c) pc instr
        = if 0 < c then (Status.Step (c - 1), some Action.Proceed)
          else (Status.WaitForAction, some Action.Proceed))
    ∧ boundaries_proceed d inputs = true
    ∧ (run_boundaries d inputs).status = Status.WaitForAction
    ∧ (∀ pc word, pc < 0xFE00 →
        (wait_for_action (run_boundaries d inputs) pc word).2 = none) := by
  have haux := step_run_aux inputs (n - 1) d hbp hst hok
  have hrun : run_boundaries d inputs = ⟨Status.WaitForAction, [], none⟩ :=
    haux.2 (by omega)
  refine ⟨rfl, fun c pc instr => rfl, haux.1 (by omega), by rw [hrun], ?_⟩
  intro pc word hpc
  exact wait_for_action_waiting _ pc word hpc (by rw [hrun])

/-- Witness for C3 at count 2. -/
theorem step_command_exact_count_witness :
    (1 ≤ 2
      ∧ ([((0x3000 : Nat), (0x1234 : Nat)), (0x3001, 0x1234)] : List (Nat × Nat)).length = 2)
    ∧ boundaries_proceed ⟨step_command_transition 2, [], none⟩
        [(0x3000, 0x1234), (0x3001, 0x1234)] = true
    ∧ (run_boundaries ⟨step_command_transition 2, [], none⟩
        [(0x3000, 0x1234), (0x3001, 0x1234)]).status = Status.WaitForAction :=
  ⟨⟨by norm_num, by decide⟩,
   (step_command_exact_count 2 (by norm_num) ⟨step_command_transition 2, [], none⟩ rfl rfl
      [(0x3000, 0x1234), (0x3001, 0x1234)] (by decide) (by decide)).2.2.1,
   (step_command_exact_count 2 (by norm_num) ⟨step_command_transition 2, [], none⟩ rfl rfl
      [(0x3000, 0x1234), (0x3001, 0x1234)] (by decide) (by decide)).2.2.2.1⟩

/-- C9: starting from breakpoints with pairwise distinct addresses, every
sequence of break add and break remove commands preserves distinctness;
adding at an existing address inserts nothing and reports the
already-exists notice; removing drops every breakpoint at the address and
reports exactly whether any existed. -/
theorem breakpoints_no_duplicates (init : List Breakpoint)
    (hinit : distinct_addresses init) :
    (∀ cmds : List BreakCmd, distinct_addresses (apply_break_cmds init cmds))
    ∧ (∀ a, Breakpoints.contains init a = true → break_add init a = (init, true))
    ∧ (∀ a, ∀ b ∈ (Breakpoints.remove init a).1, b.address ≠ a)
    ∧ (∀ a, (Breakpoints.remove init a).2 = Breakpoints.contains init a) :=
  ⟨fun cmds => distinct_addresses_apply_cmds cmds init hinit,
   fun a h => by simp [break_add, h],
   fun a => breakpoints_remove_mem init a,
   fun a => breakpoints_remove_report init a⟩

/-- Witness for C9 on a predefined breakpoint and a small command burst. -/
theorem breakpoints_no_duplicates_witness :
    distinct_addresses [(⟨0x3000, true⟩ : Breakpoint)]
    ∧ distinct_addresses (apply_break_cmds [⟨0x3000, true⟩]
        [BreakCmd.add 0x3005, BreakCmd.add 0x3005, BreakCmd.remove 0x3005]) :=
  ⟨by simp [distinct_addresses],
   (breakpoints_no_duplicates [⟨0x3000, true⟩] (by simp [distinct_addresses])).1
     [BreakCmd.add 0x3005, BreakCmd.add 0x3005, BreakCmd.remove 0x3005]⟩

/-- C5 (counterexample): with load origin 0x3000, a present label of raw
value 0x5001 and offset 0, the claimed address 0x3000 + (0x5001 - 1) + 0 =
0x8000 satisfies the claimed bound origin at most address below 0xFE00,
yet resolution yields no address, because the code compares the signed
16-bit reading of 0x8000 (which is negative) against the origin. -/
theorem resolve_label_address_counterexample :
    resolve_label_address 0x3000 (some 0x5001) 0 = none
    ∧ (0x3000 + (0x5001 - 1) + 0) % 65536 = 0x8000
    ∧ (0x3000 : Nat) ≤ 0x8000 ∧ (0x8000 : Nat) < 0xFE00 := by
  refine ⟨by decide, by decide, by decide, by decide⟩

/-- C5 (amended): for a present label, resolution computes origin +
(value - 1) + offset in 16-bit arithmetic and accepts exactly when the
signed 16-bit reading of the origin is at most the signed 16-bit reading
of that address and the address is below 0xFE00, reporting it; otherwise,
and for an absent name, it yields no address. With origin 0x3000 and raw
value 3, a zero offset resolves to 0x3002. -/
theorem resolve_label_address_amended (orig : Nat) (symbol_value : Option Nat)
    (offset : Int) (horig : orig < 65536) :
    resolve_label_address orig symbol_value offset
      = resolve_label_address_spec orig symbol_value offset
    ∧ resolve_label_address 0x3000 (some 3) 0 = some 0x3002
    ∧ resolve_label_address 0x3000 none 0 = none := by
  refine ⟨?_, by decide, rfl⟩
  cases symbol_value with
  | none => rfl
  | some v =>
    simp only [resolve_label_address, resolve_label_address_spec, get_label_address,
      Option.map_some']
    have key1 : toU16 (wrapI16 (toI16 ((v + 65535) % 65536) + offset + toI16 orig))
        = (((orig : Int) + (((v + 65535) % 65536 : Nat) : Int) + offset) % 65536).toNat := by
      simp only [toI16, wrapI16, toU16]
      split_ifs <;> omega
    have key2 : wrapI16 (toI16 ((v + 65535) % 65536) + offset + toI16 orig)
        = toI16 ((((orig : Int) + (((v + 65535) % 65536 : Nat) : Int) + offset) % 65536).toNat) := by
      simp only [toI16, wrapI16]
      split_ifs <;> omega
    rw [key1, key2]
    split_ifs with h1 h2
    · exfalso
      omega
    · rfl
    · rfl
    · exfalso
      omega

/-- Witness for C5 at origin 0x3000 with the counterexample label value. -/
theorem resolve_label_address_amended_witness :
    (0x3000 : Nat) < 65536
    ∧ resolve_label_address 0x3000 (some 0x5001) 0
        = resolve_label_address_spec 0x3000 (some 0x5001) 0 :=
  ⟨by decide, (resolve_label_address_amended 0x3000 (some 0x5001) 0 (by decide)).1⟩

end Lace
